import Mathlib

/-!
Shallow embedding of the order-text extraction pipeline (`app.py`).

Strings are modelled as `List Char`.  The Python regexes used by the source
are small and deterministic (all repetition operators act on character
classes disjoint from what follows), so each regex is embedded as a
deterministic pattern matcher; `re.finditer` is embedded as a left-to-right
scan that emits a match and resumes at its end.  Word boundaries (`\b`) and
character classes are modelled over ASCII, which covers every pattern used
by the source.
-/

namespace Pup

/-- ASCII model of the regex word-character class `\w` = `[A-Za-z0-9_]`. -/
def isWordChar (c : Char) : Bool := c.isAlphanum || c = '_'

/-- ASCII model of the regex whitespace class `\s`. -/
def isSpaceChar (c : Char) : Bool :=
  c = ' ' || c = '\t' || c = '\n' || c = '\r' || c = '\x0b' || c = '\x0c'

/-- A `\b` holds before the scan position: at start of text or after a non-word char. -/
def boundaryBefore : Option Char → Bool
  | none => true
  | some c => !isWordChar c

/-- A `\b` holds after the matched text: at end of text or before a non-word char. -/
def boundaryAfter : List Char → Bool
  | [] => true
  | c :: _ => !isWordChar c

/-- Components of the deterministic patterns compiled by the source
(`re` patterns whose greedy repetitions are over classes disjoint from
what follows, so a single-pass matcher is exact). -/
inductive Pat where
  | lit (w : List Char)      -- case-insensitive literal
  | optChar (c : Char)       -- `c?`
  | spaces0                  -- `\s*`
  | spaces1                  -- `\s+`
  | digits (n : Nat)         -- `\d{n}`
deriving DecidableEq

/-- Case-insensitive literal match at the head; returns (consumed, rest). -/
def matchLit : List Char → List Char → Option (List Char × List Char)
  | [], s => some ([], s)
  | _ :: _, [] => none
  | a :: w, c :: s =>
    if c.toLower = a.toLower then
      match matchLit w s with
      | some (con, r) => some (c :: con, r)
      | none => none
    else none

/-- Exactly `n` ASCII digits at the head; returns (consumed, rest). -/
def takeDigits : Nat → List Char → Option (List Char × List Char)
  | 0, s => some ([], s)
  | _ + 1, [] => none
  | n + 1, c :: s =>
    if c.isDigit then
      match takeDigits n s with
      | some (con, r) => some (c :: con, r)
      | none => none
    else none

/-- Match one pattern component at the head of `s`; returns (consumed, rest). -/
def matchPat : Pat → List Char → Option (List Char × List Char)
  | .lit w, s => matchLit w s
  | .optChar ch, s =>
    match s with
    | c :: r => if c.toLower = ch.toLower then some ([c], r) else some ([], c :: r)
    | [] => some ([], [])
  | .spaces0, s => some (s.span isSpaceChar)
  | .spaces1, s =>
    let p := s.span isSpaceChar
    if p.1.isEmpty then none else some p
  | .digits n, s => takeDigits n s

/-- Match a pattern sequence at the head of `s`; returns (consumed, rest). -/
def matchPats : List Pat → List Char → Option (List Char × List Char)
  | [], s => some ([], s)
  | p :: ps, s =>
    match matchPat p s with
    | none => none
    | some (c1, r1) =>
      match matchPats ps r1 with
      | none => none
      | some (c2, r2) => some (c1 ++ c2, r2)

/-- A matcher receives the character preceding the scan position (`none` at the
start of the text) and the suffix at the scan position, and returns the
consumed characters of a match starting exactly there, if any. -/
def Matcher : Type := Option Char → List Char → Option (List Char)

/-- Matcher for a `\b … \b`-delimited pattern sequence. -/
def patMatcher (ps : List Pat) : Matcher := fun prev s =>
  if boundaryBefore prev then
    match matchPats ps s with
    | some (con, rest) => if boundaryAfter rest then some con else none
    | none => none
  else none

/-- Alternation: first matcher that succeeds (regex alternative order). -/
def altMatcher (ms : List Matcher) : Matcher := fun prev s =>
  ms.findSome? (fun m => m prev s)

/-- Attempt a match at position `j` of text `t`. -/
def matchAt (m : Matcher) (t : List Char) (j : Nat) : Option (List Char) :=
  m (if j = 0 then none else t[j - 1]?) (t.drop j)

/-- One step of `re.finditer`: scan from position `j`, emit each match with its
start position and resume at its end.  `fuel` only bounds the recursion; with
`fuel ≥ t.length + 1` starting at 0 it never runs out, since every step
advances the position. -/
def findFromAux (m : Matcher) (t : List Char) : Nat → Nat → List (Nat × List Char)
  | 0, _ => []
  | fuel + 1, j =>
    if j < t.length then
      match matchAt m t j with
      | some g => (j, g) :: findFromAux m t fuel (j + max g.length 1)
      | none => findFromAux m t fuel (j + 1)
    else []

/-- All matches of `m` in `t`, as (start, matched text), in scan order
(`re.finditer` semantics). -/
def findAll (m : Matcher) (t : List Char) : List (Nat × List Char) :=
  findFromAux m t (t.length + 1) 0

/-! ### The compiled patterns of the source -/

/-- `ORDER_RE = \b(2\d{8})\b`. -/
def orderM : Matcher := patMatcher [.lit ['2'], .digits 8]

/-- `DATE_RE = \b(\d{4}-\d{2}-\d{2}\s+\d{2}:\d{2})\b`. -/
def dateM : Matcher :=
  patMatcher [.digits 4, .lit ['-'], .digits 2, .lit ['-'], .digits 2,
              .spaces1, .digits 2, .lit [':'], .digits 2]

/-- The fixed status vocabulary, in the source's alternation order. -/
def statusWords : List (List Char) :=
  ["checked", "picked", "picking", "started", "completed", "complete",
   "ready", "packing", "packed"].map String.data

/-- `STATUS_RE = \b(checked|picked|…|packed)\b`, case-insensitive. -/
def statusM : Matcher := altMatcher (statusWords.map (fun w => patMatcher [.lit w]))

/-- One notes alternative: a case-insensitive lead phrase followed by `[^\n]*`. -/
def leadToEol (lead : List Char) : Matcher := fun _ s =>
  match matchLit lead s with
  | some (con, r) => some (con ++ r.takeWhile (fun c => c ≠ '\n'))
  | none => none

/-- `NOTES_RE = (Incom[^\n]*|remaining item[^\n]*|missing[^\n]*)`, case-insensitive,
with no word boundaries. -/
def notesM : Matcher :=
  altMatcher [leadToEol "Incom".data, leadToEol "remaining item".data,
              leadToEol "missing".data]

/-- Python `f"{i:02d}"`. -/
def dd2 (i : Nat) : String := if i < 10 then "0" ++ toString i else toString i

/-- Pattern `\bA\s*-?\s*dd\s*\*?\s*-?\s*PUP\b` (and the same with `B`). -/
def bayPat (letter : Char) (i : Nat) : List Pat :=
  [.lit [letter], .spaces0, .optChar '-', .spaces0, .lit (dd2 i).data,
   .spaces0, .optChar '*', .spaces0, .optChar '-', .spaces0, .lit "PUP".data]

/-- Pattern `\bRACK\s*-?\s*lvl\s*-?\s*dd\s*-?\s*PUP\b`. -/
def rackPat (lvl : String) (i : Nat) : List Pat :=
  [.lit "RACK".data, .spaces0, .optChar '-', .spaces0, .lit lvl.data,
   .spaces0, .optChar '-', .spaces0, .lit (dd2 i).data,
   .spaces0, .optChar '-', .spaces0, .lit "PUP".data]

/-- Pattern `\bCUBE\s*-?\s*i\s*-?\s*\*?\s*PUP\b`. -/
def cubePat (i : Nat) : List Pat :=
  [.lit "CUBE".data, .spaces0, .optChar '-', .spaces0, .lit (toString i).data,
   .spaces0, .optChar '-', .spaces0, .optChar '*', .spaces0, .lit "PUP".data]

/-- `build_location_patterns()` from the source: the allow-listed location
shapes, each paired with its canonical labeled string. -/
def build_location_patterns : List (List Pat × List Char) :=
  ((List.range 13).map (fun k =>
    (bayPat 'A' (k + 1), ("A-" ++ dd2 (k + 1) ++ " PUP").data)))
  ++ ((List.range 12).map (fun k =>
    (bayPat 'B' (k + 1), ("B-" ++ dd2 (k + 1) ++ " PUP").data)))
  ++ [([.lit "PUP".data, .spaces0, .optChar '-', .spaces0, .lit "BOX".data],
       "PUP-BOX".data)]
  ++ (["HIGH", "LOW"].flatMap (fun lvl => (List.range 6).map (fun k =>
    (rackPat lvl (k + 1), ("RACK-" ++ lvl ++ "-" ++ dd2 (k + 1) ++ "-PUP").data))))
  ++ ((List.range 9).map (fun k =>
    (cubePat (k + 1), ("CUBE-" ++ toString (k + 1) ++ "-PUP").data)))
  ++ [([.lit "PALLETS".data, .spaces1, .lit "PUP".data], "PALLETS PUP".data),
      ([.lit "PUP".data, .spaces0, .optChar '-', .spaces0, .lit "DOOR".data],
       "PUP DOOR".data),
      ([.lit "NEXT".data, .spaces1, .lit "TO".data, .spaces1, .lit "CUBES".data],
       "NEXT TO CUBES".data)]

/-- `LOC_PATTERNS` module constant of the source. -/
def LOC_PATTERNS : List (List Pat × List Char) := build_location_patterns

/-! ### Extractors -/

/-- Pair each order-number match with its block span:
`end = next match start (or end of input)`, block = `text[start:end]`. -/
def pairBlocks (text : List Char) : List (Nat × List Char) → List (List Char × List Char)
  | [] => []
  | [(s, g)] => [(g, text.drop s)]
  | (s, g) :: m2 :: rest =>
    (g, (text.drop s).take (m2.1 - s)) :: pairBlocks text (m2 :: rest)

/-- `parse_blocks`: one `(order_number, block_text)` per `ORDER_RE` match. -/
def parse_blocks (text : List Char) : List (List Char × List Char) :=
  pairBlocks text (findAll orderM text)

/-- Python `str.capitalize`: first character uppercased, the rest lowercased. -/
def capitalize : List Char → List Char
  | [] => []
  | c :: r => c.toUpper :: r.map Char.toLower

/-- `extract_status`: first `STATUS_RE` match, capitalized; `""` if none. -/
def extract_status (t : List Char) : List Char :=
  match (findAll statusM t).head? with
  | some m => capitalize m.2
  | none => []

/-- The source's best-match update: keep the candidate with the strictly larger
start (`(best is None) or (m.start() > best[0])`). -/
def bestStep (b : Option (Nat × List Char)) (m : Nat × List Char) :
    Option (Nat × List Char) :=
  match b with
  | none => some m
  | some bb => if bb.1 < m.1 then some m else some bb

/-- `extract_location`: over all `LOC_PATTERNS`, the match with the highest
start position, returned as (canonical string, start); `("", None)` if none. -/
def extract_location (t : List Char) : List Char × Option Nat :=
  let best := LOC_PATTERNS.foldl
    (fun b pc =>
      ((findAll (patMatcher pc.1) t).map (fun m => (m.1, pc.2))).foldl bestStep b)
    none
  match best with
  | some (s, canon) => (canon, some s)
  | none => ([], none)

/-- `extract_service_date`: last `DATE_RE` match in `block_text[:loc_start]`
(whole block when `loc_start` is `None`); `""` if none. -/
def extract_service_date (t : List Char) (locStart : Option Nat) : List Char :=
  let scanUpto := match locStart with | some i => i | none => t.length
  let candidates := (findAll dateM (t.take scanUpto)).map (fun m => m.2)
  match candidates.getLast? with
  | some d => d
  | none => []

/-- Python `str.strip`: drop leading and trailing whitespace. -/
def pstrip (l : List Char) : List Char :=
  ((l.dropWhile isSpaceChar).reverse.dropWhile isSpaceChar).reverse

/-- `extract_notes`: all `NOTES_RE` matches, each stripped, joined by `"; "`;
`""` if none. -/
def extract_notes (t : List Char) : List Char :=
  let notes := (findAll notesM t).map (fun m => m.2)
  if notes.isEmpty then [] else List.intercalate "; ".data (notes.map pstrip)

/-! ### Row assembly and table building (the `parse_clicked` handler) -/

/-- One output row before temporal coercion. -/
structure Row where
  order_number : List Char
  status : List Char
  service_date : List Char
  location : List Char
deriving DecidableEq

/-- The per-block body of the parse loop: location, then service date bounded
by the location offset, then status; notes text substituted into the location
field when no allow-listed location matched. -/
def assembleRow (order_no block : List Char) : Row :=
  let lp := extract_location block
  let svc := extract_service_date block lp.2
  let status := extract_status block
  let loc :=
    if lp.1.isEmpty then
      let fallback := extract_notes block
      if fallback.isEmpty then [] else fallback
    else lp.1
  ⟨order_no, status, svc, loc⟩

/-- All rows, one per block, in block order. -/
def parse_core (raw : List Char) : List Row :=
  (parse_blocks raw).map (fun ob => assembleRow ob.1 ob.2)

def isLeapYear (y : Nat) : Bool := (y % 4 = 0 && !(y % 100 = 0)) || y % 400 = 0

def daysInMonth (y m : Nat) : Nat :=
  if m = 2 then (if isLeapYear y then 29 else 28)
  else if m = 4 || m = 6 || m = 9 || m = 11 then 30
  else 31

def natOfDigits (l : List Char) : Nat :=
  l.foldl (fun a c => a * 10 + (c.toNat - '0'.toNat)) 0

/-- Models `pd.to_datetime(…, errors="coerce")` on the strings this pipeline
produces for the service-date column (either `""` or a `DATE_RE` match):
a calendar-valid `YYYY-MM-DD<ws>HH:MM` becomes a lexicographically encoded
timestamp, anything else becomes the null temporal value `none` (`NaT`). -/
def to_datetime (s : List Char) : Option Nat :=
  match takeDigits 4 s with
  | none => none
  | some (ys, r1) =>
    match r1 with
    | '-' :: r2 =>
      match takeDigits 2 r2 with
      | none => none
      | some (mos, r3) =>
        match r3 with
        | '-' :: r4 =>
          match takeDigits 2 r4 with
          | none => none
          | some (ds, r5) =>
            let sp := r5.span isSpaceChar
            if sp.1.isEmpty then none else
            match takeDigits 2 sp.2 with
            | none => none
            | some (hs, r7) =>
              match r7 with
              | ':' :: r8 =>
                match takeDigits 2 r8 with
                | none => none
                | some (mis, r9) =>
                  if r9.isEmpty then
                    let y := natOfDigits ys
                    let mo := natOfDigits mos
                    let d := natOfDigits ds
                    let h := natOfDigits hs
                    let mi := natOfDigits mis
                    if 1 ≤ mo && mo ≤ 12 && 1 ≤ d && d ≤ daysInMonth y mo
                        && h ≤ 23 && mi ≤ 59 then
                      some ((((y * 100 + mo) * 100 + d) * 100 + h) * 100 + mi)
                    else none
                  else none
              | _ => none
        | _ => none
    | _ => none

/-- A row of the final table, after `pd.to_datetime` coercion. -/
structure TRow where
  order_number : List Char
  status : List Char
  service_date : Option Nat
  location : List Char
deriving DecidableEq

def toTRow (r : Row) : TRow :=
  ⟨r.order_number, r.status, to_datetime r.service_date, r.location⟩

/-- Key comparison used by the sort: by service date only, direction given by
`desc`, with the null temporal value (`none`) sorting last either way
(pandas `sort_values` with default `na_position="last"`). -/
def dateLE (desc : Bool) : Option Nat → Option Nat → Bool
  | none, none => true
  | none, some _ => false
  | some _, none => true
  | some x, some y => if desc then decide (y ≤ x) else decide (x ≤ y)

def rowLE (desc : Bool) (a b : TRow) : Prop :=
  dateLE desc a.service_date b.service_date = true

instance (desc : Bool) : DecidableRel (rowLE desc) :=
  fun a b => instDecidableEqBool (dateLE desc a.service_date b.service_date) true

/-- `df.sort_values("Service date", ascending=not sort_desc)`: a comparison
sort by the service-date key (pandas leaves tie order unspecified; any
comparison sort realizes the same key ordering). -/
def sortRows (desc : Bool) (rows : List TRow) : List TRow :=
  List.insertionSort (rowLE desc) rows

/-- The full pipeline behind the Parse button: segment, extract, coerce dates,
sort by service date. -/
def build_table (sort_desc : Bool) (raw : List Char) : List TRow :=
  sortRows sort_desc ((parse_core raw).map toTRow)

/-- The quality-checks subset: rows with an empty status, a null service date,
or an empty location (the order-number predicate of the source is vacuous,
as order numbers are always a 9-digit match). -/
def flaggedRows (rows : List TRow) : List TRow :=
  rows.filter (fun r => r.status.isEmpty || r.service_date.isNone || r.location.isEmpty)

/-- The iteration domain of `extract_location`'s nested loop: every match of
every allow-listed pattern, paired with that pattern's canonical string, in
pattern order. -/
def allLocMatches (t : List Char) : List (Nat × List Char) :=
  LOC_PATTERNS.flatMap (fun pc => (findAll (patMatcher pc.1) t).map (fun m => (m.1, pc.2)))

/-! ### Spec-modelled definitions

The source implements only the closed-list location policy; the spec's
`location_mode` flag and its open-pattern policy with canonicalization are a
design element with no code under `src/`, so they are modelled from the
spec's words below. -/

/-- Modelled from the spec: the `location_mode` configuration flag selecting
which Location Extractor policy is active. -/
inductive LocationMode where
  | open_pattern
  | closed_list
deriving DecidableEq

/-- Modelled from the spec: collapse double spaces to single spaces. -/
def collapseSpaces : List Char → List Char
  | ' ' :: ' ' :: r => collapseSpaces (' ' :: r)
  | c :: r => c :: collapseSpaces r
  | [] => []

/-- Modelled from the spec: remove spaces adjacent to hyphens. -/
def remHyphenSpace : List Char → List Char
  | ' ' :: '-' :: r => remHyphenSpace ('-' :: r)
  | '-' :: ' ' :: r => '-' :: remHyphenSpace r
  | c :: r => c :: remHyphenSpace r
  | [] => []

/-- Modelled from the spec: open-pattern canonicalization — uppercase the
match, collapse double spaces to single, remove spaces adjacent to hyphens. -/
def canonicalize_open (s : List Char) : List Char :=
  remHyphenSpace (collapseSpaces (s.map Char.toUpper))

/-- Modelled from the spec: in open-pattern mode the same last-match-wins
search runs over the location shape family, but the raw matched substring is
kept instead of the canonical labeled string. -/
def bestRawOpen (t : List Char) : Option (Nat × List Char) :=
  LOC_PATTERNS.foldl (fun b pc => (findAll (patMatcher pc.1) t).foldl bestStep b) none

/-- Modelled from the spec: the Location Extractor under the `location_mode`
flag — closed-list mode is the source's `extract_location`; open-pattern mode
returns the raw matched substring, canonicalized. -/
def extract_location_mode (mode : LocationMode) (t : List Char) : List Char × Option Nat :=
  match mode with
  | .closed_list => extract_location t
  | .open_pattern =>
    match bestRawOpen t with
    | some (s, raw) => (canonicalize_open raw, some s)
    | none => ([], none)

/-- The Notes Extractor as worded by the spec and claim: the matched
substrings, which extend to end-of-line, are joined by `"; "` as-is — without
the source's `str.strip` on each piece. -/
def extract_notes_claim (t : List Char) : List Char :=
  let notes := (findAll notesM t).map (fun m => m.2)
  if notes.isEmpty then [] else List.intercalate "; ".data notes

/-! ### Scanner lemmas -/

theorem findFromAux_mem (m : Matcher) (t : List Char) :
    ∀ fuel j x, x ∈ findFromAux m t fuel j → j ≤ x.1 ∧ matchAt m t x.1 = some x.2 := by
  intro fuel
  induction fuel with
  | zero => intro j x hx; simp [findFromAux] at hx
  | succ n ih =>
    intro j x hx
    by_cases hj : j < t.length
    · rw [findFromAux, if_pos hj] at hx
      cases hm : matchAt m t j with
      | some g =>
        rw [hm] at hx
        rcases List.mem_cons.mp hx with rfl | hx
        · exact ⟨le_rfl, hm⟩
        · have h2 := ih _ _ hx
          exact ⟨by omega, h2.2⟩
      | none =>
        rw [hm] at hx
        have h2 := ih _ _ hx
        exact ⟨by omega, h2.2⟩
    · rw [findFromAux, if_neg hj] at hx
      simp at hx

theorem findFromAux_pairwise (m : Matcher) (t : List Char) :
    ∀ fuel j, List.Pairwise (fun a b : Nat × List Char => a.1 < b.1) (findFromAux m t fuel j) := by
  intro fuel
  induction fuel with
  | zero => intro j; simp [findFromAux]
  | succ n ih =>
    intro j
    by_cases hj : j < t.length
    · rw [findFromAux, if_pos hj]
      cases hm : matchAt m t j with
      | some g =>
        refine List.Pairwise.cons ?_ (ih _)
        intro b hb
        have h2 := findFromAux_mem m t n (j + max g.length 1) b hb
        omega
      | none => exact ih _
    · rw [findFromAux, if_neg hj]
      exact List.Pairwise.nil

theorem findFromAux_eq_nil (m : Matcher) (t : List Char) :
    ∀ fuel j, (∀ q, j ≤ q → matchAt m t q = none) → findFromAux m t fuel j = [] := by
  intro fuel
  induction fuel with
  | zero => intro j _; rfl
  | succ n ih =>
    intro j h
    by_cases hj : j < t.length
    · rw [findFromAux, if_pos hj, h j le_rfl]
      exact ih _ (fun q hq => h q (by omega))
    · rw [findFromAux, if_neg hj]

theorem findFromAux_head (m : Matcher) (t : List Char) :
    ∀ fuel j p g, t.length ≤ j + fuel → j ≤ p → p < t.length →
      matchAt m t p = some g → (∀ q, j ≤ q → q < p → matchAt m t q = none) →
      (findFromAux m t fuel j).head? = some (p, g) := by
  intro fuel
  induction fuel with
  | zero => intro j p g hf hjp hp _ _; omega
  | succ n ih =>
    intro j p g hf hjp hp hm hnone
    have hj : j < t.length := lt_of_le_of_lt hjp hp
    rcases eq_or_lt_of_le hjp with rfl | hlt
    · rw [findFromAux, if_pos hj, hm]
      rfl
    · rw [findFromAux, if_pos hj, hnone j le_rfl hlt]
      exact ih (j + 1) p g (by omega) (by omega) hp hm
        (fun q hq hq2 => hnone q (by omega) hq2)

/-! ### Block-pairing lemmas -/

theorem pairBlocks_length (t : List Char) : ∀ ms, (pairBlocks t ms).length = ms.length := by
  intro ms
  induction ms with
  | nil => rfl
  | cons hd tl ih =>
    obtain ⟨s, g⟩ := hd
    cases tl with
    | nil => rfl
    | cons m2 rest =>
      obtain ⟨s2, g2⟩ := m2
      simpa [pairBlocks] using ih

theorem pairBlocks_get (t : List Char) :
    ∀ ms i s g, ms[i]? = some (s, g) →
      (pairBlocks t ms)[i]? = some (g, (t.drop s).take
        ((((ms[i + 1]?).map (fun m2 => m2.1)).getD t.length) - s)) := by
  intro ms
  induction ms with
  | nil => intro i s g h; simp at h
  | cons hd tl ih =>
    obtain ⟨s0, g0⟩ := hd
    intro i s g hms
    cases tl with
    | nil =>
      cases i with
      | zero =>
        simp at hms
        obtain ⟨rfl, rfl⟩ := hms
        show some (g0, t.drop s0) = some (g0, (t.drop s0).take (t.length - s0))
        rw [show t.length - s0 = (t.drop s0).length from (List.length_drop s0 t).symm,
          List.take_length]
      | succ n => simp at hms
    | cons m2 rest =>
      obtain ⟨s2, g2⟩ := m2
      cases i with
      | zero =>
        simp at hms
        obtain ⟨rfl, rfl⟩ := hms
        simp [pairBlocks]
      | succ n =>
        have h2 := ih n s g (by simpa using hms)
        simpa [pairBlocks] using h2

theorem pairBlocks_flatten (t : List Char) :
    ∀ ms s g, List.Chain' (fun a b : Nat × List Char => a.1 ≤ b.1) ((s, g) :: ms) →
      ((pairBlocks t ((s, g) :: ms)).map (fun b => b.2)).flatten = t.drop s := by
  intro ms
  induction ms with
  | nil => intro s g _; simp [pairBlocks]
  | cons m2 rest ih =>
    intro s g hch
    obtain ⟨s2, g2⟩ := m2
    have hle : s ≤ s2 := (List.chain'_cons.mp hch).1
    have hch2 := (List.chain'_cons.mp hch).2
    simp only [pairBlocks, List.map_cons, List.flatten_cons]
    rw [ih s2 g2 hch2]
    have h1 : t.drop s2 = (t.drop s).drop (s2 - s) := by
      rw [List.drop_drop]
      congr 1
      omega
    rw [h1, List.take_append_drop]

/-! ### Best-match fold lemmas -/

theorem foldl_foldl_flatMap {β γ α : Type} (step : Option α → γ → Option α)
    (f : β → List γ) :
    ∀ (l : List β) (acc : Option α),
      l.foldl (fun b x => (f x).foldl step b) acc = (l.flatMap f).foldl step acc := by
  intro l
  induction l with
  | nil => intro acc; rfl
  | cons x xs ih =>
    intro acc
    simp only [List.foldl_cons, List.flatMap_cons, List.foldl_append]
    exact ih _

theorem foldl_bestStep_some :
    ∀ (l : List (Nat × List Char)) (b : Nat × List Char),
      ∃ r, l.foldl bestStep (some b) = some r ∧ (r = b ∨ r ∈ l) ∧ b.1 ≤ r.1 ∧
        ∀ x ∈ l, x.1 ≤ r.1 := by
  intro l
  induction l with
  | nil => intro b; exact ⟨b, rfl, Or.inl rfl, le_rfl, by simp⟩
  | cons m xs ih =>
    intro b
    simp only [List.foldl_cons]
    by_cases h : b.1 < m.1
    · have hb : bestStep (some b) m = some m := by simp [bestStep, h]
      rw [hb]
      obtain ⟨r, h1, h2, h3, h4⟩ := ih m
      refine ⟨r, h1, ?_, by omega, ?_⟩
      · rcases h2 with rfl | h2
        · exact Or.inr (List.mem_cons_self _ _)
        · exact Or.inr (List.mem_cons_of_mem _ h2)
      · intro x hx
        rcases List.mem_cons.mp hx with rfl | hx
        · exact h3
        · exact h4 x hx
    · have hb : bestStep (some b) m = some b := by simp [bestStep, h]
      rw [hb]
      obtain ⟨r, h1, h2, h3, h4⟩ := ih b
      refine ⟨r, h1, ?_, h3, ?_⟩
      · rcases h2 with rfl | h2
        · exact Or.inl rfl
        · exact Or.inr (List.mem_cons_of_mem _ h2)
      · intro x hx
        rcases List.mem_cons.mp hx with rfl | hx
        · omega
        · exact h4 x hx

theorem extract_location_eq_bestOf (t : List Char) :
    extract_location t =
      (match (allLocMatches t).foldl bestStep none with
       | some (s, canon) => (canon, some s)
       | none => ([], none)) := by
  unfold extract_location allLocMatches
  rw [foldl_foldl_flatMap]

/-! ### Empty-input behaviour of the status matcher -/

theorem altMatcher_nil (ms : List Matcher) (prev : Option Char)
    (h : ∀ m ∈ ms, m prev [] = none) : altMatcher ms prev [] = none := by
  induction ms with
  | nil => rfl
  | cons m rest ih =>
    have h0 := h m (List.mem_cons_self m rest)
    unfold altMatcher at ih ⊢
    simp only [List.findSome?_cons, h0]
    exact ih (fun x hx => h x (List.mem_cons_of_mem _ hx))

theorem patMatcher_lit_nil (c : Char) (w : List Char) (ps : List Pat) (prev : Option Char) :
    patMatcher (.lit (c :: w) :: ps) prev [] = none := by
  unfold patMatcher matchPats matchPat matchLit
  cases boundaryBefore prev <;> simp

theorem statusM_nil (prev : Option Char) : statusM prev [] = none := by
  apply altMatcher_nil
  intro m hm
  simp only [statusM, statusWords, List.map_map, List.map_cons, List.map_nil,
    List.mem_cons, List.not_mem_nil, or_false] at hm
  rcases hm with rfl | rfl | rfl | rfl | rfl | rfl | rfl | rfl | rfl <;>
    exact patMatcher_lit_nil _ _ _ _

/-! ### Claim theorems -/

/-- C1: the Block Segmenter produces exactly one block per order-number match
(`\b2\d{8}\b`), in left-to-right order; block `i` spans from the start of
match `i` to the start of match `i+1` (or end of input for the last one); the
concatenated block spans reconstruct the text from the first match to the end
of the input, with no gaps or overlaps; zero matches yield the empty
sequence. -/
theorem claim_C1 (text : List Char) :
    (parse_blocks text).length = (findAll orderM text).length
    ∧ (findAll orderM text = [] → parse_blocks text = [])
    ∧ (∀ i s g, (findAll orderM text)[i]? = some (s, g) →
        (parse_blocks text)[i]? = some (g, (text.drop s).take
          (((((findAll orderM text)[i + 1]?).map (fun m2 => m2.1)).getD text.length) - s)))
    ∧ (∀ s g rest, findAll orderM text = (s, g) :: rest →
        ((parse_blocks text).map (fun b => b.2)).flatten = text.drop s) := by
  refine ⟨?_, ?_, ?_, ?_⟩
  · exact pairBlocks_length text (findAll orderM text)
  · intro h
    simp [parse_blocks, h, pairBlocks]
  · intro i s g h
    exact pairBlocks_get text (findAll orderM text) i s g h
  · intro s g rest h
    have hp : List.Pairwise (fun a b : Nat × List Char => a.1 < b.1) (findAll orderM text) :=
      findFromAux_pairwise orderM text (text.length + 1) 0
    rw [h] at hp
    have hch : List.Chain' (fun a b : Nat × List Char => a.1 ≤ b.1) ((s, g) :: rest) :=
      List.Chain'.imp (fun a b hab => le_of_lt hab) hp.chain'
    simp only [parse_blocks, h]
    exact pairBlocks_flatten text rest s g hch

/-- Witness for C1 on a concrete input with two order numbers. -/
theorem claim_C1_witness :
    findAll orderM ("x 210000001 a 210000002 b".data) =
      [(2, "210000001".data), (14, "210000002".data)]
    ∧ ((parse_blocks ("x 210000001 a 210000002 b".data)).map (fun b => b.2)).flatten =
        ("x 210000001 a 210000002 b".data).drop 2 :=
  ⟨by decide,
   (claim_C1 ("x 210000001 a 210000002 b".data)).2.2.2 2 "210000001".data
     [(14, "210000002".data)] (by decide)⟩

/-- C2: the Location Extractor returns the (canonical string, offset) pair of
the match with the highest starting offset among all allow-listed pattern
matches (the last-occurring match wins), and `("", none)` when nothing
matches. -/
theorem claim_C2 (t : List Char) :
    (allLocMatches t = [] → extract_location t = ([], none))
    ∧ (allLocMatches t ≠ [] → ∃ s c, extract_location t = (c, some s) ∧
        (s, c) ∈ allLocMatches t ∧ ∀ m ∈ allLocMatches t, m.1 ≤ s) := by
  constructor
  · intro h
    rw [extract_location_eq_bestOf, h]
    rfl
  · intro h
    rw [extract_location_eq_bestOf]
    cases hl : allLocMatches t with
    | nil => exact absurd hl h
    | cons m rest =>
      have hstep : (m :: rest).foldl bestStep none = rest.foldl bestStep (some m) := rfl
      obtain ⟨r, h1, h2, h3, h4⟩ := foldl_bestStep_some rest m
      rw [hstep, h1]
      obtain ⟨rs, rc⟩ := r
      refine ⟨rs, rc, rfl, ?_, ?_⟩
      · rcases h2 with h2 | h2
        · rw [← h2]
          exact List.mem_cons_self _ _
        · exact List.mem_cons_of_mem _ h2
      · intro x hx
        rcases List.mem_cons.mp hx with rfl | hx
        · exact h3
        · exact h4 x hx

/-- Witness for C2: two valid location matches, at offsets 5 and 40; the
extractor returns the one at offset 40. -/
theorem claim_C2_witness :
    extract_location ("abcd A-01 PUP".data ++ List.replicate 27 '.' ++ "B-02 PUP".data) =
      ("B-02 PUP".data, some 40)
    ∧ (5, "A-01 PUP".data) ∈
        allLocMatches ("abcd A-01 PUP".data ++ List.replicate 27 '.' ++ "B-02 PUP".data)
    ∧ (∃ s c, extract_location
          ("abcd A-01 PUP".data ++ List.replicate 27 '.' ++ "B-02 PUP".data) = (c, some s) ∧
        (s, c) ∈ allLocMatches
          ("abcd A-01 PUP".data ++ List.replicate 27 '.' ++ "B-02 PUP".data) ∧
        ∀ m ∈ allLocMatches
          ("abcd A-01 PUP".data ++ List.replicate 27 '.' ++ "B-02 PUP".data), m.1 ≤ s) :=
  ⟨by decide, by decide,
   (claim_C2 ("abcd A-01 PUP".data ++ List.replicate 27 '.' ++ "B-02 PUP".data)).2
     (by decide)⟩

/-- C3: the Service-Date Extractor returns the last `DATE_RE` match in the
window strictly before the location offset (the whole block when no offset is
supplied), and the empty string when that window has no match. -/
theorem claim_C3 (t : List Char) (k : Nat) (loc : Option Nat) :
    (extract_service_date t (some k) = extract_service_date (t.take k) none)
    ∧ (findAll dateM (t.take (loc.getD t.length)) = [] → extract_service_date t loc = [])
    ∧ (∀ p d, (findAll dateM (t.take (loc.getD t.length))).getLast? = some (p, d) →
        extract_service_date t loc = d) := by
  refine ⟨?_, ?_, ?_⟩
  · simp only [extract_service_date, List.take_length]
  · intro h
    cases loc with
    | none =>
      simp only [Option.getD_none, List.take_length] at h
      simp [extract_service_date, h]
    | some i =>
      simp only [Option.getD_some] at h
      simp [extract_service_date, h]
  · intro p d h
    cases loc with
    | none =>
      simp only [Option.getD_none, List.take_length] at h
      simp [extract_service_date, List.getLast?_map, h]
    | some i =>
      simp only [Option.getD_some] at h
      simp [extract_service_date, List.getLast?_map, h]

/-- Witness for C3: a date before the location mention and a later date after
it; with the location offset supplied, the earlier date is returned. -/
theorem claim_C3_witness :
    (findAll dateM (("2024-01-01 08:00 A-01 PUP 2024-01-02 09:00".data).take 17)).getLast? =
      some (0, "2024-01-01 08:00".data)
    ∧ extract_location "2024-01-01 08:00 A-01 PUP 2024-01-02 09:00".data =
        ("A-01 PUP".data, some 17)
    ∧ extract_service_date "2024-01-01 08:00 A-01 PUP 2024-01-02 09:00".data (some 17) =
        "2024-01-01 08:00".data
    ∧ extract_service_date "2024-01-01 08:00 A-01 PUP 2024-01-02 09:00".data none =
        "2024-01-02 09:00".data :=
  ⟨by decide, by decide,
   (claim_C3 "2024-01-01 08:00 A-01 PUP 2024-01-02 09:00".data 17 (some 17)).2.2 0
     "2024-01-01 08:00".data (by decide),
   by decide⟩

/-- C4: the Status Extractor returns the first-occurring whole-word,
case-insensitive match of the fixed status vocabulary, capitalized, and the
empty string when no keyword occurs. -/
theorem claim_C4 (t : List Char) :
    ((∀ q, matchAt statusM t q = none) → extract_status t = [])
    ∧ (∀ p g, matchAt statusM t p = some g →
        (∀ q, q < p → matchAt statusM t q = none) →
        extract_status t = capitalize g) := by
  constructor
  · intro h
    have h0 : findAll statusM t = [] :=
      findFromAux_eq_nil statusM t (t.length + 1) 0 (fun q _ => h q)
    simp [extract_status, h0]
  · intro p g hm hq
    have hp : p < t.length := by
      by_contra hc
      push_neg at hc
      have hdrop : t.drop p = [] := List.drop_eq_nil_of_le hc
      simp only [matchAt, hdrop] at hm
      rw [statusM_nil] at hm
      exact Option.noConfusion hm
    have hh : (findAll statusM t).head? = some (p, g) :=
      findFromAux_head statusM t (t.length + 1) 0 p g (by omega) (Nat.zero_le p) hp hm
        (fun q _ hq2 => hq q hq2)
    simp [extract_status, hh]

/-- Witness for C4: "packed" at offset 3 and "checked" at offset 50; the
extractor returns "Packed" (first occurrence). -/
theorem claim_C4_witness :
    matchAt statusM ("qq packed".data ++ List.replicate 41 '.' ++ "checked".data) 3 =
      some "packed".data
    ∧ matchAt statusM ("qq packed".data ++ List.replicate 41 '.' ++ "checked".data) 50 =
        some "checked".data
    ∧ extract_status ("qq packed".data ++ List.replicate 41 '.' ++ "checked".data) =
        capitalize "packed".data
    ∧ capitalize "packed".data = "Packed".data :=
  ⟨by decide, by decide,
   (claim_C4 ("qq packed".data ++ List.replicate 41 '.' ++ "checked".data)).2 3
     "packed".data (by decide) (by decide),
   by decide⟩

/-- C5: the `location_mode` flag selects between the two Location Extractor
policies: closed-list mode is the source's `extract_location`; in open-pattern
mode the raw matched substring is returned canonicalized by uppercasing,
collapsing double spaces and removing spaces adjacent to hyphens.
(The open-pattern policy is modelled from the spec; only the closed-list
policy exists in the source.) -/
theorem claim_C5 (t : List Char) :
    (extract_location_mode LocationMode.closed_list t = extract_location t)
    ∧ (∀ s raw, bestRawOpen t = some (s, raw) →
        extract_location_mode LocationMode.open_pattern t =
          (remHyphenSpace (collapseSpaces (raw.map Char.toUpper)), some s))
    ∧ (bestRawOpen t = none → extract_location_mode LocationMode.open_pattern t = ([], none))
    ∧ canonicalize_open "b - 02  pup".data = "B-02 PUP".data := by
  refine ⟨rfl, ?_, ?_, by decide⟩
  · intro s raw h
    simp [extract_location_mode, h, canonicalize_open]
  · intro h
    simp [extract_location_mode, h]

/-- Witness for C5 on a concrete open-pattern input. -/
theorem claim_C5_witness :
    bestRawOpen "go to a - 01 - pup now".data = some (6, "a - 01 - pup".data)
    ∧ extract_location_mode LocationMode.open_pattern "go to a - 01 - pup now".data =
        (remHyphenSpace (collapseSpaces ("a - 01 - pup".data.map Char.toUpper)), some 6)
    ∧ remHyphenSpace (collapseSpaces ("a - 01 - pup".data.map Char.toUpper)) =
        "A-01-PUP".data :=
  ⟨by decide,
   (claim_C5 "go to a - 01 - pup now".data).2.1 6 "a - 01 - pup".data (by decide),
   by decide⟩

/-- C6: in closed-list mode, when no allow-listed location code matches, the
row's location field is the Notes Extractor's output for the block, and it
stays empty only when the notes output is also empty. -/
theorem claim_C6 (order_no block : List Char) (h : (extract_location block).1 = []) :
    (assembleRow order_no block).location = extract_notes block
    ∧ ((assembleRow order_no block).location = [] ↔ extract_notes block = []) := by
  have h1 : (assembleRow order_no block).location = extract_notes block := by
    simp only [assembleRow, h]
    by_cases hn : (extract_notes block).isEmpty
    · simp [hn, List.isEmpty_iff.mp hn]
    · simp [hn]
  exact ⟨h1, by rw [h1]⟩

/-- Witness for C6: a block with no listed location code containing
"missing 2 x widgets" yields that text as the location. -/
theorem claim_C6_witness :
    (extract_location "210000001 missing 2 x widgets".data).1 = []
    ∧ (assembleRow "210000001".data "210000001 missing 2 x widgets".data).location =
        extract_notes "210000001 missing 2 x widgets".data
    ∧ extract_notes "210000001 missing 2 x widgets".data = "missing 2 x widgets".data :=
  ⟨by decide,
   (claim_C6 "210000001".data "210000001 missing 2 x widgets".data (by decide)).1,
   by decide⟩

theorem dateLE_total (d : Bool) (x y : Option Nat) :
    dateLE d x y = true ∨ dateLE d y x = true := by
  cases x <;> cases y <;> cases d <;> simp [dateLE, decide_eq_true_eq] <;> omega

theorem dateLE_trans (d : Bool) (x y z : Option Nat) (h1 : dateLE d x y = true)
    (h2 : dateLE d y z = true) : dateLE d x z = true := by
  cases x <;> cases y <;> cases z <;> cases d <;>
    simp [dateLE, decide_eq_true_eq] at * <;> omega

instance rowLE_isTotal (d : Bool) : IsTotal TRow (rowLE d) :=
  ⟨fun a b => dateLE_total d a.service_date b.service_date⟩

instance rowLE_isTrans (d : Bool) : IsTrans TRow (rowLE d) :=
  ⟨fun _ _ _ h1 h2 => dateLE_trans d _ _ _ h1 h2⟩

/-- C7: the Table Builder sorts the records by service date only, with
configurable direction; null temporal values (empty or unparsable dates) sort
last regardless of direction; the two-order end-to-end input with default
settings produces exactly two rows, newest first, with matching fields. -/
theorem claim_C7 (d : Bool) (rows : List TRow) :
    List.Perm (sortRows d rows) rows
    ∧ List.Sorted (rowLE d) (sortRows d rows)
    ∧ List.Pairwise (fun a b : TRow => a.service_date = none → b.service_date = none)
        (sortRows d rows)
    ∧ build_table true
        "210000001 checked 2024-03-01 10:00 A-05 PUP\n210000002 picking 2024-03-02 11:00 B-02 PUP".data =
        [⟨"210000002".data, "Picking".data, some 202403021100, "B-02 PUP".data⟩,
         ⟨"210000001".data, "Checked".data, some 202403011000, "A-05 PUP".data⟩] := by
  refine ⟨List.perm_insertionSort _ _, List.sorted_insertionSort _ _, ?_, by decide⟩
  have hs : List.Pairwise (rowLE d) (sortRows d rows) :=
    List.sorted_insertionSort (rowLE d) rows
  refine hs.imp ?_
  intro a b hab hn
  cases hb : b.service_date with
  | none => rfl
  | some v =>
    rw [rowLE, hn, hb] at hab
    simp [dateLE] at hab

/-- C8: every block yields exactly one row in the final table; partial or
missing data surfaces as empty fields, never as a dropped row; the
quality-flagged subset consists exactly of the table rows with an empty
status, a null service date, or an empty location, each of which still
appears in the main table. -/
theorem claim_C8 (d : Bool) (raw : List Char) :
    (build_table d raw).length = (parse_blocks raw).length
    ∧ (∀ r, r ∈ build_table d raw →
        (r.status = [] ∨ r.service_date = none ∨ r.location = []) →
        r ∈ flaggedRows (build_table d raw))
    ∧ (∀ r, r ∈ flaggedRows (build_table d raw) →
        r ∈ build_table d raw ∧ (r.status = [] ∨ r.service_date = none ∨ r.location = [])) := by
  refine ⟨?_, ?_, ?_⟩
  · simp [build_table, sortRows, List.length_insertionSort, parse_core]
  · intro r hr hcond
    rw [flaggedRows, List.mem_filter]
    refine ⟨hr, ?_⟩
    simp only [Bool.or_eq_true, List.isEmpty_iff, Option.isNone_iff_eq_none]
    tauto
  · intro r hr
    rw [flaggedRows, List.mem_filter] at hr
    refine ⟨hr.1, ?_⟩
    have h2 := hr.2
    simp only [Bool.or_eq_true, List.isEmpty_iff, Option.isNone_iff_eq_none] at h2
    tauto

/-- Witness for C8: a block with no status, date or location yields a row that
appears in the main table and in the flagged subset. -/
theorem claim_C8_witness :
    ((⟨"210000001".data, [], none, []⟩ : TRow) ∈ build_table true "210000001 hello".data)
    ∧ ((⟨"210000001".data, [], none, []⟩ : TRow) ∈
        flaggedRows (build_table true "210000001 hello".data)) :=
  ⟨by decide,
   (claim_C8 true "210000001 hello".data).2.1 ⟨"210000001".data, [], none, []⟩
     (by decide) (by decide)⟩

/-- C9 (amended): the Notes Extractor finds the left-to-right non-overlapping
substrings starting with a lead phrase and extending to end-of-line, strips
surrounding whitespace from each, and joins them by "; " in order of
appearance; empty string if none. -/
theorem claim_C9 (t : List Char) :
    extract_notes t =
      List.intercalate "; ".data (((findAll notesM t).map (fun m => m.2)).map pstrip)
    ∧ List.Pairwise (fun a b : Nat × List Char => a.1 < b.1) (findAll notesM t)
    ∧ (∀ m ∈ findAll notesM t, matchAt notesM t m.1 = some m.2) := by
  refine ⟨?_, findFromAux_pairwise notesM t (t.length + 1) 0, ?_⟩
  · by_cases h : ((findAll notesM t).map (fun m => m.2)).isEmpty
    · have h0 : (findAll notesM t).map (fun m => m.2) = [] := List.isEmpty_iff.mp h
      simp [extract_notes, h0, List.intercalate]
    · simp [extract_notes, h]
  · intro m hm
    exact (findFromAux_mem notesM t (t.length + 1) 0 m hm).2

/-- Counterexample to C9 as stated: the matched substring extends to end of
line including its trailing space, but the extractor returns it stripped. -/
theorem claim_C9_counterexample :
    extract_notes "missing x ".data = "missing x".data
    ∧ extract_notes_claim "missing x ".data = "missing x ".data
    ∧ extract_notes "missing x ".data ≠ extract_notes_claim "missing x ".data :=
  ⟨by decide, by decide, by decide⟩

/-- Witness for C9 on a concrete block. -/
theorem claim_C9_witness :
    extract_notes "210000001 missing stuff".data =
      List.intercalate "; ".data
        (((findAll notesM "210000001 missing stuff".data).map (fun m => m.2)).map pstrip)
    ∧ matchAt notesM "210000001 missing stuff".data 10 = some "missing stuff".data :=
  ⟨(claim_C9 "210000001 missing stuff".data).1,
   (claim_C9 "210000001 missing stuff".data).2.2 (10, "missing stuff".data) (by decide)⟩

/-- C10: when no allow-listed location matches, the location offset is absent,
so the service date is the last date anywhere in the whole block, and the
notes fallback that fills the location field never narrows that search
window. -/
theorem claim_C10 (order_no block : List Char)
    (h : extract_location block = ([], none)) :
    (assembleRow order_no block).service_date = extract_service_date block none
    ∧ extract_service_date block none =
        (match ((findAll dateM block).map (fun m => m.2)).getLast? with
         | some d => d
         | none => [])
    ∧ (assembleRow order_no block).location = extract_notes block := by
  refine ⟨?_, ?_, ?_⟩
  · simp [assembleRow, h]
  · simp [extract_service_date, List.take_length]
  · simp only [assembleRow, h]
    by_cases hn : (extract_notes block).isEmpty
    · simp [hn, List.isEmpty_iff.mp hn]
    · simp [hn]

/-- Witness for C10: a block whose only location-like text is notes fallback
text, with a date after it; the date search window is the whole block. -/
theorem claim_C10_witness :
    extract_location "210000001 missing stuff 2024-05-05 12:00".data = ([], none)
    ∧ (assembleRow "210000001".data
        "210000001 missing stuff 2024-05-05 12:00".data).service_date =
        extract_service_date "210000001 missing stuff 2024-05-05 12:00".data none
    ∧ (assembleRow "210000001".data
        "210000001 missing stuff 2024-05-05 12:00".data).location =
        extract_notes "210000001 missing stuff 2024-05-05 12:00".data
    ∧ extract_service_date "210000001 missing stuff 2024-05-05 12:00".data none =
        "2024-05-05 12:00".data
    ∧ extract_notes "210000001 missing stuff 2024-05-05 12:00".data =
        "missing stuff 2024-05-05 12:00".data :=
  ⟨by decide,
   (claim_C10 "210000001".data "210000001 missing stuff 2024-05-05 12:00".data (by decide)).1,
   (claim_C10 "210000001".data "210000001 missing stuff 2024-05-05 12:00".data (by decide)).2.2,
   by decide, by decide⟩

end Pup
